import Mathlib

/-!
# Verification of the 3D measurement system core

A shallow embedding of `src/src/MeasurementSystem.ts`: the geometry kernel
(distance, normalization, increment snapping), the annotation builder
(`createDimensionLineGroup`), the two-click interaction state machine
(`handleClick`, `handleMouseMove`, `cancelMeasurement`, `activate`,
`deactivate`) and the measurement registry (`removeMeasurement`,
`clearAllMeasurements`), together with theorems about their behaviour.

Vectors are modelled over the exact reals; `Math.round` is Mathlib's
`round` (both round half toward positive infinity), and three.js
`Vector3.normalize` divides by `length || 1`, so the zero vector
normalizes to itself.  Renderer-only output (arrowhead meshes positioned
via look-at quaternions and the canvas-rasterized text sprite) is the
rendering collaborator's concern and carries no measurement data; the
builder's measurement record and line geometry are modelled in full.
-/

namespace MeasurementSystem

/-- A 3-component real vector, modelling `THREE.Vector3` used as a value
(the source always `clone()`s before storing). -/
@[ext]
structure Vec3 where
  x : ℝ
  y : ℝ
  z : ℝ

/-- Componentwise sum, modelling `Vector3.add`. -/
def Vec3.add (a b : Vec3) : Vec3 := ⟨a.x + b.x, a.y + b.y, a.z + b.z⟩

/-- Componentwise difference, modelling `Vector3.sub` (`a - b`). -/
def Vec3.sub (a b : Vec3) : Vec3 := ⟨a.x - b.x, a.y - b.y, a.z - b.z⟩

/-- Scalar multiple, modelling `Vector3.multiplyScalar`. -/
def Vec3.smul (c : ℝ) (v : Vec3) : Vec3 := ⟨c * v.x, c * v.y, c * v.z⟩

/-- Euclidean norm, modelling `Vector3.length`. -/
noncomputable def Vec3.length (v : Vec3) : ℝ :=
  Real.sqrt (v.x ^ 2 + v.y ^ 2 + v.z ^ 2)

/-- Euclidean distance, modelling `Vector3.distanceTo`. -/
noncomputable def Vec3.distanceTo (a b : Vec3) : ℝ := (Vec3.sub a b).length

/-- Modelling `Vector3.normalize`, which divides by `this.length() || 1`:
the zero vector (the only vector of zero length over the reals) is left
unchanged. -/
noncomputable def Vec3.normalize (v : Vec3) : Vec3 :=
  Vec3.smul (1 / (if Vec3.length v = 0 then 1 else Vec3.length v)) v

theorem Vec3.length_nonneg (v : Vec3) : 0 ≤ v.length :=
  Real.sqrt_nonneg _

theorem Vec3.distanceTo_nonneg (a b : Vec3) : 0 ≤ a.distanceTo b :=
  Vec3.length_nonneg _

theorem Vec3.length_smul (c : ℝ) (v : Vec3) :
    (Vec3.smul c v).length = |c| * v.length := by
  simp only [Vec3.length, Vec3.smul]
  rw [show (c * v.x) ^ 2 + (c * v.y) ^ 2 + (c * v.z) ^ 2
        = c ^ 2 * (v.x ^ 2 + v.y ^ 2 + v.z ^ 2) by ring,
      Real.sqrt_mul (sq_nonneg c), Real.sqrt_sq_eq_abs]

theorem Vec3.length_sub_comm (a b : Vec3) :
    (Vec3.sub a b).length = (Vec3.sub b a).length := by
  simp only [Vec3.length, Vec3.sub]
  congr 1
  ring

theorem Vec3.sub_add_cancel_left (s v : Vec3) :
    Vec3.sub (Vec3.add s v) s = v := by
  ext <;> simp [Vec3.sub, Vec3.add]

theorem Vec3.distanceTo_add_right (s v : Vec3) :
    Vec3.distanceTo s (Vec3.add s v) = v.length := by
  rw [Vec3.distanceTo, Vec3.length_sub_comm, Vec3.sub_add_cancel_left]

theorem Vec3.smul_smul (a b : ℝ) (v : Vec3) :
    Vec3.smul a (Vec3.smul b v) = Vec3.smul (a * b) v := by
  ext <;> simp [Vec3.smul] <;> ring

theorem Vec3.one_smul (v : Vec3) : Vec3.smul 1 v = v := by
  ext <;> simp [Vec3.smul]

theorem Vec3.normalize_of_length_ne_zero {v : Vec3} (h : v.length ≠ 0) :
    v.normalize = Vec3.smul (1 / v.length) v := by
  simp [Vec3.normalize, h]

theorem Vec3.length_normalize {v : Vec3} (h : v.length ≠ 0) :
    v.normalize.length = 1 := by
  have hpos : 0 < v.length := lt_of_le_of_ne (Vec3.length_nonneg v) (Ne.symm h)
  rw [Vec3.normalize_of_length_ne_zero h, Vec3.length_smul,
      abs_of_pos (by positivity), one_div, inv_mul_cancel₀ h]

theorem Vec3.eq_zero_of_length_eq_zero {v : Vec3} (h : v.length = 0) :
    v = ⟨0, 0, 0⟩ := by
  have h' : v.x ^ 2 + v.y ^ 2 + v.z ^ 2 ≤ 0 := Real.sqrt_eq_zero'.mp h
  ext <;> dsimp only <;>
    nlinarith [sq_nonneg v.x, sq_nonneg v.y, sq_nonneg v.z]

theorem Vec3.normalize_smul_of_pos {c : ℝ} (v : Vec3) (hc : 0 < c) :
    (Vec3.smul c v).normalize = v.normalize := by
  by_cases h : v.length = 0
  · rw [Vec3.eq_zero_of_length_eq_zero h]
    congr 1
    ext <;> simp [Vec3.smul]
  · have hs : (Vec3.smul c v).length = c * v.length := by
      rw [Vec3.length_smul, abs_of_pos hc]
    have hs0 : (Vec3.smul c v).length ≠ 0 := by
      rw [hs]; exact mul_ne_zero (ne_of_gt hc) h
    rw [Vec3.normalize_of_length_ne_zero hs0, Vec3.normalize_of_length_ne_zero h,
        hs, Vec3.smul_smul]
    congr 1
    field_simp

/-! ## Configuration constants (source lines 44-53) -/

/-- `EXTENSION_OFFSET = 0.002`, the 2px gap from the measured point. -/
def EXTENSION_OFFSET : ℝ := 0.002

/-- `EXTENSION_OVERSHOOT = 0.003`, the 3px overshoot. -/
def EXTENSION_OVERSHOOT : ℝ := 0.003

/-- `SNAP_SHIFT = 0.5`, the coarse snap increment (metres). -/
def SNAP_SHIFT : ℝ := 0.5

/-- `SNAP_CTRL = 0.1`, the fine snap increment (metres). -/
def SNAP_CTRL : ℝ := 0.1

/-! ## Geometry kernel: increment snapping (source lines 278-286) -/

/-- The local `snappedDistance` of `snapToIncrement`:
`Math.round(distance / increment) * increment`. -/
noncomputable def snappedDist (start endp : Vec3) (increment : ℝ) : ℝ :=
  ((round (start.distanceTo endp / increment) : ℤ) : ℝ) * increment

/-- `snapToIncrement(start, end, increment)`: if the rounded distance is
zero, return `end` unchanged; otherwise walk `snappedDistance` from
`start` along the normalized direction `end - start`. -/
noncomputable def snapToIncrement (start endp : Vec3) (increment : ℝ) : Vec3 :=
  if snappedDist start endp increment = 0 then endp
  else
    Vec3.add start
      (Vec3.smul (snappedDist start endp increment) (Vec3.sub endp start).normalize)

theorem snapToIncrement_of_zero {start endp : Vec3} {increment : ℝ}
    (h : snappedDist start endp increment = 0) :
    snapToIncrement start endp increment = endp := by
  rw [snapToIncrement, if_pos h]

theorem snapToIncrement_of_ne_zero {start endp : Vec3} {increment : ℝ}
    (h : snappedDist start endp increment ≠ 0) :
    snapToIncrement start endp increment
      = Vec3.add start
          (Vec3.smul (snappedDist start endp increment)
            (Vec3.sub endp start).normalize) := by
  rw [snapToIncrement, if_neg h]

theorem distanceTo_ne_zero_of_snappedDist_ne_zero {start endp : Vec3}
    {increment : ℝ} (h : snappedDist start endp increment ≠ 0) :
    start.distanceTo endp ≠ 0 := by
  intro h0
  exact h (by simp [snappedDist, h0])

theorem snappedDist_pos {start endp : Vec3} {increment : ℝ}
    (hk : 0 < increment) (h : snappedDist start endp increment ≠ 0) :
    0 < snappedDist start endp increment := by
  have hdiv : (0 : ℝ) ≤ start.distanceTo endp / increment :=
    div_nonneg (Vec3.distanceTo_nonneg _ _) hk.le
  have hr : 0 ≤ round (start.distanceTo endp / increment) := by
    rw [round_eq]
    exact Int.le_floor.mpr (by push_cast; linarith)
  have : 0 ≤ snappedDist start endp increment :=
    mul_nonneg (by exact_mod_cast hr) hk.le
  exact lt_of_le_of_ne this (Ne.symm h)

/-- The snapped point lies at distance `snappedDistance` from `start`:
the core geometric content of the snapping contract. -/
theorem distanceTo_snapToIncrement {start endp : Vec3} {increment : ℝ}
    (hk : 0 < increment) (h : snappedDist start endp increment ≠ 0) :
    start.distanceTo (snapToIncrement start endp increment)
      = snappedDist start endp increment := by
  have hd : start.distanceTo endp ≠ 0 :=
    distanceTo_ne_zero_of_snappedDist_ne_zero h
  have hlen : (Vec3.sub endp start).length ≠ 0 := by
    rw [Vec3.length_sub_comm]
    exact hd
  have hpos := snappedDist_pos hk h
  rw [snapToIncrement_of_ne_zero h, Vec3.distanceTo_add_right,
      Vec3.length_smul, Vec3.length_normalize hlen, mul_one,
      abs_of_pos hpos]

/-! ## Annotation builder (source lines 129-181)

The builder's measurement record (`userData`) and its line geometry are
modelled.  The arrowhead meshes (positioned via three.js look-at
quaternions) and the canvas-rasterized label sprite are output handed to
the rendering collaborator; they carry no measurement data and no claim
refers to them, so the group stores the label anchor (the midpoint) and
the line endpoints. -/

/-- The `DimensionGroup` produced for one completed measurement:
`userData` fields plus the synthesized line segments. -/
structure DimensionGroup where
  startPoint : Vec3
  endPoint : Vec3
  distance : ℝ
  dimLine : Vec3 × Vec3
  extLine1 : Vec3 × Vec3
  extLine2 : Vec3 × Vec3
  labelPos : Vec3

/-- `createDimensionLineGroup(a, b)`: caches `distance = a.distanceTo(b)`
in `userData`, builds the main line, the two extension lines offset along
`perpendicular = normalize(-direction.y, direction.x, 0)`, and anchors the
label at the midpoint. -/
noncomputable def createDimensionLineGroup (a b : Vec3) : DimensionGroup :=
  let distance := a.distanceTo b
  let direction := Vec3.sub b a
  let perpendicular := Vec3.normalize ⟨-direction.y, direction.x, 0⟩
  let extensionLength := EXTENSION_OFFSET + EXTENSION_OVERSHOOT
  { startPoint := a
    endPoint := b
    distance := distance
    dimLine := (a, b)
    extLine1 := (Vec3.sub a (Vec3.smul extensionLength perpendicular),
                 Vec3.add a (Vec3.smul EXTENSION_OFFSET perpendicular))
    extLine2 := (Vec3.sub b (Vec3.smul extensionLength perpendicular),
                 Vec3.add b (Vec3.smul EXTENSION_OFFSET perpendicular))
    labelPos := Vec3.smul (1 / 2) (Vec3.add a b) }

/-! ## System state and interaction state machine (source lines 16-127,
288-303) -/

/-- The mutable fields of the `MeasurementSystem` singleton.  The scene
and camera handles and the shared materials are opaque collaborator
resources (spec §1, §6) and carry no core state. -/
structure MSState where
  isActive : Bool
  startPoint : Option Vec3
  previewLine : Option (Vec3 × Vec3)
  currentMousePos : Vec3
  measurements : List DimensionGroup

/-- Field initializers of `new MeasurementSystem()` (source lines 26-30):
inactive, no pending point, no preview, mouse at the origin, empty
registry. -/
def newMeasurementSystem : MSState :=
  { isActive := false
    startPoint := none
    previewLine := none
    currentMousePos := ⟨0, 0, 0⟩
    measurements := [] }

/-- `static createReference()`: `stored` is the static `instance` field;
a first call constructs the instance, later calls return the stored one. -/
def createReference (stored : Option MSState) : Option MSState × MSState :=
  match stored with
  | none => (some newMeasurementSystem, newMeasurementSystem)
  | some inst => (some inst, inst)

/-- `activate()`. -/
def activate (s : MSState) : MSState := { s with isActive := true }

/-- `cancelMeasurement()`: discards the preview and clears the pending
start point. -/
def cancelMeasurement (s : MSState) : MSState :=
  { s with previewLine := none, startPoint := none }

/-- `deactivate()`: clears `isActive` then cancels any pending
measurement. -/
def deactivate (s : MSState) : MSState :=
  cancelMeasurement { s with isActive := false }

/-- `handleMouseMove(p)`: early-returns when inactive; otherwise copies
`p` into `currentMousePos`, and, when both a preview line and a start
point exist, rebuilds the preview geometry from `[startPoint, p]`. -/
def handleMouseMove (s : MSState) (p : Vec3) : MSState :=
  if s.isActive = false then s
  else
    let s1 := { s with currentMousePos := p }
    match s1.previewLine, s1.startPoint with
    | some _, some sp => { s1 with previewLine := some (sp, p) }
    | _, _ => s1

/-- `completeMeasurement(a, b)`: builds the dimension group and pushes it
onto the registry. -/
noncomputable def completeMeasurement (s : MSState) (a b : Vec3) : MSState :=
  { s with measurements := s.measurements ++ [createDimensionLineGroup a b] }

/-- `handleClick(p, shiftKey, ctrlKey)`: ignored when inactive; a first
click captures `p` and creates the degenerate preview `[p, p]`; a second
click snaps the endpoint when a modifier is held (shift taking priority),
completes the measurement, then cancels back to idle. -/
noncomputable def handleClick (s : MSState) (p : Vec3)
    (shiftKey ctrlKey : Bool) : MSState :=
  if s.isActive = false then s
  else
    match s.startPoint with
    | none => { s with startPoint := some p, previewLine := some (p, p) }
    | some sp =>
        let endPoint :=
          if shiftKey then snapToIncrement sp p SNAP_SHIFT
          else if ctrlKey then snapToIncrement sp p SNAP_CTRL
          else p
        cancelMeasurement (completeMeasurement s sp endPoint)

/-- `removeMeasurement(index)`: splices out the entry only when
`0 <= index < length`. -/
def removeMeasurement (s : MSState) (index : ℤ) : MSState :=
  if 0 ≤ index ∧ index < (s.measurements.length : ℤ) then
    { s with measurements := s.measurements.eraseIdx index.toNat }
  else s

/-- `clearAllMeasurements()`: releases every entry and empties the
registry. -/
def clearAllMeasurements (s : MSState) : MSState :=
  { s with measurements := [] }

/-! ## Event-driven runs

The host (the bootstrap file) forwards pointer and keyboard events one at
a time (spec §5); a run is a fold of the entry points over an event
list. -/

/-- One host-delivered event. -/
inductive Event where
  | move (p : Vec3)
  | click (p : Vec3) (shiftKey ctrlKey : Bool)
  | cancel
  | activate
  | deactivate
  | removeAt (i : ℤ)
  | clearAll

/-- Dispatch one event to the corresponding entry point. -/
noncomputable def step (e : Event) (s : MSState) : MSState :=
  match e with
  | .move p => handleMouseMove s p
  | .click p sh ct => handleClick s p sh ct
  | .cancel => cancelMeasurement s
  | .activate => activate s
  | .deactivate => deactivate s
  | .removeAt i => removeMeasurement s i
  | .clearAll => clearAllMeasurements s

/-- Process a list of events in delivery order. -/
noncomputable def run (s : MSState) (evs : List Event) : MSState :=
  evs.foldl (fun acc e => step e acc) s

/-! ## Registry invariants -/

theorem measurements_handleMouseMove (s : MSState) (p : Vec3) :
    (handleMouseMove s p).measurements = s.measurements := by
  unfold handleMouseMove
  split
  · rfl
  · dsimp only
    split <;> rfl

theorem createDimensionLineGroup_cache (a b : Vec3) :
    (createDimensionLineGroup a b).distance
      = (createDimensionLineGroup a b).startPoint.distanceTo
          (createDimensionLineGroup a b).endPoint := rfl

theorem step_preserves_distance_cache (e : Event) (s : MSState)
    (h : ∀ m ∈ s.measurements,
      m.distance = m.startPoint.distanceTo m.endPoint) :
    ∀ m ∈ (step e s).measurements,
      m.distance = m.startPoint.distanceTo m.endPoint := by
  cases e with
  | move p => simpa [step, measurements_handleMouseMove] using h
  | click p sh ct =>
      simp only [step]
      unfold handleClick
      split
      · exact h
      · split
        · simpa using h
        · intro m hm
          simp only [cancelMeasurement, completeMeasurement, List.mem_append,
            List.mem_singleton] at hm
          rcases hm with hm | rfl
          · exact h m hm
          · exact createDimensionLineGroup_cache _ _
  | cancel => simpa [step, cancelMeasurement] using h
  | activate => simpa [step, activate] using h
  | deactivate => simpa [step, deactivate, cancelMeasurement] using h
  | removeAt i =>
      intro m hm
      simp only [step] at hm
      unfold removeMeasurement at hm
      split at hm
      · exact h m (List.mem_of_mem_eraseIdx hm)
      · exact h m hm
  | clearAll =>
      intro m hm
      simp [step, clearAllMeasurements] at hm

/-! ## Claims -/

/-- C1: for every pair of distinct points `a ≠ b`, the group built by
`createDimensionLineGroup` caches a `distance` field equal to the
Euclidean distance between `a` and `b` at creation time, that distance is
nonnegative, and no event ever recomputes it: the cache equation is an
invariant of every event-driven run. -/
theorem createDimensionLineGroup_caches_distance (a b : Vec3) (hab : a ≠ b) :
    (createDimensionLineGroup a b).distance = a.distanceTo b ∧
    0 ≤ (createDimensionLineGroup a b).distance ∧
    ∀ (s : MSState) (evs : List Event),
      (∀ m ∈ s.measurements, m.distance = m.startPoint.distanceTo m.endPoint) →
      ∀ m ∈ (run s evs).measurements,
        m.distance = m.startPoint.distanceTo m.endPoint := by
  refine ⟨rfl, Vec3.distanceTo_nonneg a b, ?_⟩
  intro s evs
  induction evs generalizing s with
  | nil => exact fun h => h
  | cons e evs ih => exact fun h => ih _ (step_preserves_distance_cache e s h)

/-- C1 witness: at `a = (0,0,0)`, `b = (3,4,0)` the cached distance is
the Euclidean distance, which evaluates to `5`. -/
theorem createDimensionLineGroup_caches_distance_witness :
    (Vec3.mk 0 0 0 ≠ Vec3.mk 3 4 0) ∧
    (createDimensionLineGroup ⟨0, 0, 0⟩ ⟨3, 4, 0⟩).distance
      = Vec3.distanceTo ⟨0, 0, 0⟩ ⟨3, 4, 0⟩ ∧
    0 ≤ (createDimensionLineGroup ⟨0, 0, 0⟩ ⟨3, 4, 0⟩).distance ∧
    Vec3.distanceTo ⟨0, 0, 0⟩ ⟨3, 4, 0⟩ = 5 := by
  have hne : Vec3.mk 0 0 0 ≠ Vec3.mk 3 4 0 := by
    intro hc
    have hx := congrArg Vec3.x hc
    norm_num at hx
  have h := createDimensionLineGroup_caches_distance ⟨0, 0, 0⟩ ⟨3, 4, 0⟩ hne
  refine ⟨hne, h.1, h.2.1, ?_⟩
  simp only [Vec3.distanceTo, Vec3.sub, Vec3.length]
  rw [show ((0 : ℝ) - 3) ^ 2 + ((0 : ℝ) - 4) ^ 2 + ((0 : ℝ) - 0) ^ 2
        = (5 : ℝ) ^ 2 by norm_num,
      Real.sqrt_sq (by norm_num)]

/-- C2: with the system active, a click in the idle state (no pending
start point) appends nothing to the registry and moves to pending; a
click in the pending state appends exactly one measurement (built from
the pending start and the possibly snapped click point, appended at the
end so earlier entries are preserved in order) and clears both the start
point and the preview, returning to idle. -/
theorem handleClick_state_machine (s : MSState) (p : Vec3)
    (sh ct : Bool) (hA : s.isActive = true) :
    (s.startPoint = none →
      (handleClick s p sh ct).measurements = s.measurements ∧
      (handleClick s p sh ct).startPoint = some p) ∧
    (∀ sp, s.startPoint = some sp →
      (handleClick s p sh ct).measurements
        = s.measurements
            ++ [createDimensionLineGroup sp
                  (if sh then snapToIncrement sp p SNAP_SHIFT
                   else if ct then snapToIncrement sp p SNAP_CTRL
                   else p)] ∧
      (handleClick s p sh ct).startPoint = none ∧
      (handleClick s p sh ct).previewLine = none) := by
  constructor
  · intro hsp
    rw [handleClick, if_neg (by simp [hA]), hsp]
    exact ⟨rfl, rfl⟩
  · intro sp hsp
    rw [handleClick, if_neg (by simp [hA]), hsp]
    exact ⟨rfl, rfl, rfl⟩

/-- C2 witness: from the freshly activated state, a first click at
`(1,2,3)` registers nothing and stores the start point; a second click at
`(4,5,6)` appends exactly one measurement and returns to idle. -/
theorem handleClick_state_machine_witness :
    (MSState.mk true none none ⟨0, 0, 0⟩ []).isActive = true ∧
    ((handleClick ⟨true, none, none, ⟨0, 0, 0⟩, []⟩ ⟨1, 2, 3⟩ false false).measurements
        = [] ∧
      (handleClick ⟨true, none, none, ⟨0, 0, 0⟩, []⟩ ⟨1, 2, 3⟩ false false).startPoint
        = some ⟨1, 2, 3⟩) ∧
    (MSState.mk true (some ⟨1, 2, 3⟩) (some (⟨1, 2, 3⟩, ⟨1, 2, 3⟩)) ⟨0, 0, 0⟩ []).isActive
        = true ∧
    ((handleClick ⟨true, some ⟨1, 2, 3⟩, some (⟨1, 2, 3⟩, ⟨1, 2, 3⟩), ⟨0, 0, 0⟩, []⟩
          ⟨4, 5, 6⟩ false false).measurements
        = [] ++ [createDimensionLineGroup ⟨1, 2, 3⟩
            (if false then snapToIncrement ⟨1, 2, 3⟩ ⟨4, 5, 6⟩ SNAP_SHIFT
             else if false then snapToIncrement ⟨1, 2, 3⟩ ⟨4, 5, 6⟩ SNAP_CTRL
             else ⟨4, 5, 6⟩)] ∧
      (handleClick ⟨true, some ⟨1, 2, 3⟩, some (⟨1, 2, 3⟩, ⟨1, 2, 3⟩), ⟨0, 0, 0⟩, []⟩
          ⟨4, 5, 6⟩ false false).startPoint = none ∧
      (handleClick ⟨true, some ⟨1, 2, 3⟩, some (⟨1, 2, 3⟩, ⟨1, 2, 3⟩), ⟨0, 0, 0⟩, []⟩
          ⟨4, 5, 6⟩ false false).previewLine = none) := by
  refine ⟨rfl, ?_, rfl, ?_⟩
  · exact (handleClick_state_machine ⟨true, none, none, ⟨0, 0, 0⟩, []⟩
      ⟨1, 2, 3⟩ false false rfl).1 rfl
  · exact (handleClick_state_machine
      ⟨true, some ⟨1, 2, 3⟩, some (⟨1, 2, 3⟩, ⟨1, 2, 3⟩), ⟨0, 0, 0⟩, []⟩
      ⟨4, 5, 6⟩ false false rfl).2 ⟨1, 2, 3⟩ rfl

theorem Vec3.normalize_normalize {v : Vec3} (h : v.length ≠ 0) :
    v.normalize.normalize = v.normalize := by
  have h1 : v.normalize.length = 1 := Vec3.length_normalize h
  rw [Vec3.normalize_of_length_ne_zero (by rw [h1]; norm_num), h1]
  rw [show (1 : ℝ) / 1 = 1 by norm_num, Vec3.one_smul]

/-- C3: for every start, end and positive increment with nonzero rounded
distance, `snapToIncrement` returns the point reached from `start` by
walking the snapped distance along the normalized direction `end - start`,
and that point lies exactly at the snapped distance from `start`. -/
theorem snapToIncrement_characterization (start endp : Vec3) (increment : ℝ)
    (hk : 0 < increment) (h : snappedDist start endp increment ≠ 0) :
    snapToIncrement start endp increment
      = Vec3.add start
          (Vec3.smul (snappedDist start endp increment)
            (Vec3.sub endp start).normalize) ∧
    start.distanceTo (snapToIncrement start endp increment)
      = snappedDist start endp increment :=
  ⟨snapToIncrement_of_ne_zero h, distanceTo_snapToIncrement hk h⟩

/-- C3 witness, the spec scenario: snapping `(1.23, 0, 0)` from the
origin with the coarse step `0.5` lands at distance `1.0` from the start
(`round(1.23 / 0.5) = 2`, `2 * 0.5 = 1`). -/
theorem snapToIncrement_characterization_witness :
    (0 : ℝ) < SNAP_SHIFT ∧
    snappedDist ⟨0, 0, 0⟩ ⟨1.23, 0, 0⟩ SNAP_SHIFT ≠ 0 ∧
    Vec3.distanceTo ⟨0, 0, 0⟩
      (snapToIncrement ⟨0, 0, 0⟩ ⟨1.23, 0, 0⟩ SNAP_SHIFT) = 1 := by
  have hk : (0 : ℝ) < SNAP_SHIFT := by norm_num [SNAP_SHIFT]
  have hd : Vec3.distanceTo ⟨0, 0, 0⟩ ⟨(1.23 : ℝ), 0, 0⟩ = 1.23 := by
    simp only [Vec3.distanceTo, Vec3.sub, Vec3.length]
    rw [show ((0 : ℝ) - 1.23) ^ 2 + ((0 : ℝ) - 0) ^ 2 + ((0 : ℝ) - 0) ^ 2
          = (1.23 : ℝ) ^ 2 by norm_num,
        Real.sqrt_sq (by norm_num)]
  have hround : round ((1.23 : ℝ) / SNAP_SHIFT) = 2 := by
    rw [round_eq, show (1.23 : ℝ) / SNAP_SHIFT + 1 / 2 = 2.96 by
      norm_num [SNAP_SHIFT]]
    norm_num
  have hsnap : snappedDist ⟨0, 0, 0⟩ ⟨1.23, 0, 0⟩ SNAP_SHIFT = 1 := by
    rw [snappedDist, hd, hround]
    norm_num [SNAP_SHIFT]
  have hne : snappedDist ⟨0, 0, 0⟩ ⟨1.23, 0, 0⟩ SNAP_SHIFT ≠ 0 := by
    rw [hsnap]; norm_num
  refine ⟨hk, hne, ?_⟩
  rw [(snapToIncrement_characterization ⟨0, 0, 0⟩ ⟨1.23, 0, 0⟩
    SNAP_SHIFT hk hne).2, hsnap]

/-- C4: `snapToIncrement` is idempotent for every positive increment:
snapping an already-snapped endpoint with the same start and increment
returns the same point, exactly over the reals. -/
theorem snapToIncrement_idempotent (s e : Vec3) (k : ℝ) (hk : 0 < k) :
    snapToIncrement s (snapToIncrement s e k) k = snapToIncrement s e k := by
  by_cases h : snappedDist s e k = 0
  · rw [snapToIncrement_of_zero h]
    exact snapToIncrement_of_zero h
  · have hd : s.distanceTo e ≠ 0 :=
      distanceTo_ne_zero_of_snappedDist_ne_zero h
    have hlen : (Vec3.sub e s).length ≠ 0 := by
      rw [Vec3.length_sub_comm]; exact hd
    have hpos := snappedDist_pos hk h
    have hdist : s.distanceTo (snapToIncrement s e k) = snappedDist s e k :=
      distanceTo_snapToIncrement hk h
    have hdiv : snappedDist s e k / k
        = ((round (s.distanceTo e / k) : ℤ) : ℝ) := by
      rw [snappedDist]
      field_simp
    have hsnap2 : snappedDist s (snapToIncrement s e k) k
        = snappedDist s e k := by
      rw [snappedDist, hdist, hdiv, round_intCast, snappedDist]
    have hne2 : snappedDist s (snapToIncrement s e k) k ≠ 0 := by
      rw [hsnap2]; exact h
    rw [snapToIncrement_of_ne_zero hne2, hsnap2,
        snapToIncrement_of_ne_zero h, Vec3.sub_add_cancel_left,
        Vec3.normalize_smul_of_pos _ hpos, Vec3.normalize_normalize hlen]

/-- C4 witness: idempotence instantiated at the origin, `(3,4,0)` and the
coarse increment `0.5`. -/
theorem snapToIncrement_idempotent_witness :
    (0 : ℝ) < SNAP_SHIFT ∧
    snapToIncrement ⟨0, 0, 0⟩
        (snapToIncrement ⟨0, 0, 0⟩ ⟨3, 4, 0⟩ SNAP_SHIFT) SNAP_SHIFT
      = snapToIncrement ⟨0, 0, 0⟩ ⟨3, 4, 0⟩ SNAP_SHIFT :=
  ⟨by norm_num [SNAP_SHIFT],
   snapToIncrement_idempotent ⟨0, 0, 0⟩ ⟨3, 4, 0⟩ SNAP_SHIFT
     (by norm_num [SNAP_SHIFT])⟩

/-- C5: when the rounded distance is zero the degenerate guard returns
the unsnapped endpoint `e` itself; in particular for `e ≠ s` the result
never collapses onto `s`. -/
theorem snapToIncrement_degenerate_guard (s e : Vec3) (k : ℝ)
    (hne : e ≠ s) (h0 : snappedDist s e k = 0) :
    snapToIncrement s e k = e ∧ snapToIncrement s e k ≠ s := by
  have he := snapToIncrement_of_zero h0
  exact ⟨he, by rw [he]; exact hne⟩

/-- C5 witness: from the origin to `(0.2, 0, 0)` with the coarse step
`0.5` the rounded distance is zero (`round(0.4) = 0`) and the endpoint is
returned unchanged, distinct from the start. -/
theorem snapToIncrement_degenerate_guard_witness :
    (Vec3.mk 0.2 0 0 ≠ Vec3.mk 0 0 0) ∧
    snappedDist ⟨0, 0, 0⟩ ⟨0.2, 0, 0⟩ SNAP_SHIFT = 0 ∧
    (snapToIncrement ⟨0, 0, 0⟩ ⟨0.2, 0, 0⟩ SNAP_SHIFT = ⟨0.2, 0, 0⟩ ∧
      snapToIncrement ⟨0, 0, 0⟩ ⟨0.2, 0, 0⟩ SNAP_SHIFT ≠ ⟨0, 0, 0⟩) := by
  have hne : Vec3.mk 0.2 0 0 ≠ Vec3.mk 0 0 0 := by
    intro hc
    have hx := congrArg Vec3.x hc
    norm_num at hx
  have hd : Vec3.distanceTo ⟨0, 0, 0⟩ ⟨(0.2 : ℝ), 0, 0⟩ = 0.2 := by
    simp only [Vec3.distanceTo, Vec3.sub, Vec3.length]
    rw [show ((0 : ℝ) - 0.2) ^ 2 + ((0 : ℝ) - 0) ^ 2 + ((0 : ℝ) - 0) ^ 2
          = (0.2 : ℝ) ^ 2 by norm_num,
        Real.sqrt_sq (by norm_num)]
  have hround : round ((0.2 : ℝ) / SNAP_SHIFT) = 0 := by
    rw [round_eq, show (0.2 : ℝ) / SNAP_SHIFT + 1 / 2 = 0.9 by
      norm_num [SNAP_SHIFT]]
    norm_num
  have h0 : snappedDist ⟨0, 0, 0⟩ ⟨0.2, 0, 0⟩ SNAP_SHIFT = 0 := by
    rw [snappedDist, hd, hround]
    norm_num
  exact ⟨hne, h0,
    snapToIncrement_degenerate_guard ⟨0, 0, 0⟩ ⟨0.2, 0, 0⟩ SNAP_SHIFT hne h0⟩

/-- C6 counterexample: nothing in `handleClick` skips zero-length
clicks.  From the freshly activated state, clicking `(1,2,3)` twice (no
modifiers) completes a measurement, and the builder receives
`start = end = (1,2,3)`: the registered group's endpoints coincide, so
the "builder is only ever invoked with `start ≠ end`" contract is false
on the code. -/
theorem handleClick_completes_with_equal_endpoints :
    ((handleClick
        (handleClick ⟨true, none, none, ⟨0, 0, 0⟩, []⟩ ⟨1, 2, 3⟩ false false)
        ⟨1, 2, 3⟩ false false).measurements.map
      fun m => (m.startPoint, m.endPoint))
      = [((⟨1, 2, 3⟩ : Vec3), (⟨1, 2, 3⟩ : Vec3))] := rfl

theorem Vec3.smul_zero_vec (c : ℝ) : Vec3.smul c ⟨0, 0, 0⟩ = ⟨0, 0, 0⟩ := by
  ext <;> simp [Vec3.smul]

theorem Vec3.sub_zero_vec (p : Vec3) : Vec3.sub p ⟨0, 0, 0⟩ = p := by
  ext <;> simp [Vec3.sub]

theorem Vec3.add_zero_vec (p : Vec3) : Vec3.add p ⟨0, 0, 0⟩ = p := by
  ext <;> simp [Vec3.add]

theorem Vec3.normalize_zero_vec : Vec3.normalize ⟨0, 0, 0⟩ = ⟨0, 0, 0⟩ := by
  ext <;> simp [Vec3.normalize, Vec3.smul, Vec3.length]

/-- C6 (amended): `handleClick` enforces no `start ≠ end` guard before
invoking the builder: a completing click at the pending start point
passes equal start and end points to `createDimensionLineGroup`.  There
the direction vector has zero length, the perpendicular for the extension
lines is the normalization of the zero vector — which the `length || 1`
semantics maps to the zero vector — and both extension lines degenerate
to the point pair `(p, p)` instead of erroring; the degenerate branch is
reachable, not unreachable. -/
theorem handleClick_no_degenerate_guard (s : MSState) (p : Vec3)
    (hA : s.isActive = true) (hsp : s.startPoint = some p) :
    (handleClick s p false false).measurements
      = s.measurements ++ [createDimensionLineGroup p p] ∧
    (Vec3.sub p p).length = 0 ∧
    Vec3.normalize ⟨-(Vec3.sub p p).y, (Vec3.sub p p).x, 0⟩ = ⟨0, 0, 0⟩ ∧
    (createDimensionLineGroup p p).extLine1 = (p, p) ∧
    (createDimensionLineGroup p p).extLine2 = (p, p) := by
  have hsub : Vec3.sub p p = ⟨0, 0, 0⟩ := by
    ext <;> simp [Vec3.sub]
  have hperp : Vec3.normalize ⟨-(Vec3.sub p p).y, (Vec3.sub p p).x, 0⟩
      = ⟨0, 0, 0⟩ := by
    rw [hsub]
    ext <;> simp [Vec3.normalize, Vec3.smul, Vec3.length]
  refine ⟨?_, ?_, hperp, ?_, ?_⟩
  · rw [handleClick, if_neg (by simp [hA]), hsp]
    rfl
  · rw [hsub]
    simp [Vec3.length]
  · show (createDimensionLineGroup p p).extLine1 = (p, p)
    simp only [createDimensionLineGroup]
    rw [hperp, Vec3.smul_zero_vec, Vec3.smul_zero_vec, Vec3.sub_zero_vec,
        Vec3.add_zero_vec]
  · show (createDimensionLineGroup p p).extLine2 = (p, p)
    simp only [createDimensionLineGroup]
    rw [hperp, Vec3.smul_zero_vec, Vec3.smul_zero_vec, Vec3.sub_zero_vec,
        Vec3.add_zero_vec]

/-- C6 witness: the amended claim instantiated in a pending state whose
start point is `(1,2,3)`, clicked again at `(1,2,3)`. -/
theorem handleClick_no_degenerate_guard_witness :
    (MSState.mk true (some ⟨1, 2, 3⟩) (some (⟨1, 2, 3⟩, ⟨1, 2, 3⟩)) ⟨0, 0, 0⟩ []).isActive
        = true ∧
    (MSState.mk true (some ⟨1, 2, 3⟩) (some (⟨1, 2, 3⟩, ⟨1, 2, 3⟩)) ⟨0, 0, 0⟩ []).startPoint
        = some ⟨1, 2, 3⟩ ∧
    (handleClick ⟨true, some ⟨1, 2, 3⟩, some (⟨1, 2, 3⟩, ⟨1, 2, 3⟩), ⟨0, 0, 0⟩, []⟩
        ⟨1, 2, 3⟩ false false).measurements
      = [] ++ [createDimensionLineGroup ⟨1, 2, 3⟩ ⟨1, 2, 3⟩] ∧
    (createDimensionLineGroup ⟨1, 2, 3⟩ ⟨1, 2, 3⟩).extLine1
      = ((⟨1, 2, 3⟩ : Vec3), (⟨1, 2, 3⟩ : Vec3)) := by
  have h := handleClick_no_degenerate_guard
    ⟨true, some ⟨1, 2, 3⟩, some (⟨1, 2, 3⟩, ⟨1, 2, 3⟩), ⟨0, 0, 0⟩, []⟩
    ⟨1, 2, 3⟩ rfl rfl
  exact ⟨rfl, rfl, h.1, h.2.2.2.1⟩

/-- C7: `removeMeasurement` with a negative index or one at least the
registry length is a no-op on the whole state; with an in-range index it
removes exactly the addressed entry, leaving the earlier entries and the
later entries in their relative order, and shrinks the registry by one. -/
theorem removeMeasurement_spec (s : MSState) (i : ℤ) :
    ((i < 0 ∨ (s.measurements.length : ℤ) ≤ i) → removeMeasurement s i = s) ∧
    (0 ≤ i → i < (s.measurements.length : ℤ) →
      (removeMeasurement s i).measurements
        = s.measurements.take i.toNat ++ s.measurements.drop (i.toNat + 1) ∧
      (removeMeasurement s i).measurements.length
        = s.measurements.length - 1) := by
  constructor
  · intro hout
    rw [removeMeasurement, if_neg]
    rintro ⟨h1, h2⟩
    rcases hout with h | h <;> omega
  · intro h1 h2
    have hn : i.toNat < s.measurements.length := by omega
    rw [removeMeasurement, if_pos ⟨h1, h2⟩]
    exact ⟨List.eraseIdx_eq_take_drop_succ _ _,
      List.length_eraseIdx_of_lt hn⟩

/-- C7 witness: on a one-entry registry, removal at `1` (= length) and at
`-1` are no-ops, and removal at `0` empties the registry. -/
theorem removeMeasurement_spec_witness :
    (((1 : ℤ) < 0 ∨
        ((MSState.mk true none none ⟨0, 0, 0⟩
          [createDimensionLineGroup ⟨0, 0, 0⟩ ⟨3, 4, 0⟩]).measurements.length : ℤ) ≤ 1) ∧
      removeMeasurement
        ⟨true, none, none, ⟨0, 0, 0⟩, [createDimensionLineGroup ⟨0, 0, 0⟩ ⟨3, 4, 0⟩]⟩ 1
        = ⟨true, none, none, ⟨0, 0, 0⟩, [createDimensionLineGroup ⟨0, 0, 0⟩ ⟨3, 4, 0⟩]⟩) ∧
    ((-1 : ℤ) < 0 ∧
      removeMeasurement
        ⟨true, none, none, ⟨0, 0, 0⟩, [createDimensionLineGroup ⟨0, 0, 0⟩ ⟨3, 4, 0⟩]⟩ (-1)
        = ⟨true, none, none, ⟨0, 0, 0⟩, [createDimensionLineGroup ⟨0, 0, 0⟩ ⟨3, 4, 0⟩]⟩) ∧
    ((0 : ℤ) ≤ 0 ∧ (0 : ℤ) <
        ((MSState.mk true none none ⟨0, 0, 0⟩
          [createDimensionLineGroup ⟨0, 0, 0⟩ ⟨3, 4, 0⟩]).measurements.length : ℤ) ∧
      (removeMeasurement
        ⟨true, none, none, ⟨0, 0, 0⟩, [createDimensionLineGroup ⟨0, 0, 0⟩ ⟨3, 4, 0⟩]⟩ 0).measurements
        = [createDimensionLineGroup ⟨0, 0, 0⟩ ⟨3, 4, 0⟩].take 0
            ++ [createDimensionLineGroup ⟨0, 0, 0⟩ ⟨3, 4, 0⟩].drop 1) := by
  refine ⟨⟨Or.inr (by simp), ?_⟩, ⟨by norm_num, ?_⟩, ⟨le_refl 0, by simp, ?_⟩⟩
  · exact (removeMeasurement_spec
      ⟨true, none, none, ⟨0, 0, 0⟩, [createDimensionLineGroup ⟨0, 0, 0⟩ ⟨3, 4, 0⟩]⟩ 1).1
      (Or.inr (by simp))
  · exact (removeMeasurement_spec
      ⟨true, none, none, ⟨0, 0, 0⟩, [createDimensionLineGroup ⟨0, 0, 0⟩ ⟨3, 4, 0⟩]⟩ (-1)).1
      (Or.inl (by norm_num))
  · exact ((removeMeasurement_spec
      ⟨true, none, none, ⟨0, 0, 0⟩, [createDimensionLineGroup ⟨0, 0, 0⟩ ⟨3, 4, 0⟩]⟩ 0).2
      (le_refl 0) (by simp)).1

/-- C8 counterexample: `handleMouseMove` is not a no-op when the system
is active with no pending measurement — it still copies the pointer
position into `currentMousePos`.  In the freshly activated idle state a
move to `(1,0,0)` changes the state. -/
theorem handleMouseMove_not_noop_when_idle :
    handleMouseMove ⟨true, none, none, ⟨0, 0, 0⟩, []⟩ ⟨1, 0, 0⟩
      ≠ ⟨true, none, none, ⟨0, 0, 0⟩, []⟩ := by
  intro hc
  have hm := congrArg MSState.currentMousePos hc
  have hx := congrArg Vec3.x hm
  norm_num [handleMouseMove] at hx

/-- C8 (amended): `handleMouseMove` is a no-op exactly when the system is
inactive.  When active it always copies the point into
`currentMousePos`; it never mutates `isActive`, `startPoint` or the
registry; the preview is rebuilt to run from the pending start point to
the given point exactly when both a preview line and a start point exist,
and is untouched otherwise. -/
theorem handleMouseMove_spec (s : MSState) (p : Vec3) :
    (s.isActive = false → handleMouseMove s p = s) ∧
    (s.isActive = true →
      (handleMouseMove s p).currentMousePos = p ∧
      (handleMouseMove s p).isActive = s.isActive ∧
      (handleMouseMove s p).startPoint = s.startPoint ∧
      (handleMouseMove s p).measurements = s.measurements ∧
      (∀ sp pv, s.startPoint = some sp → s.previewLine = some pv →
        (handleMouseMove s p).previewLine = some (sp, p)) ∧
      ((s.previewLine = none ∨ s.startPoint = none) →
        (handleMouseMove s p).previewLine = s.previewLine)) := by
  constructor
  · intro hA
    rw [handleMouseMove, if_pos hA]
  · intro hA
    rw [handleMouseMove, if_neg (by simp [hA])]
    dsimp only
    rcases hpv : s.previewLine with _ | pv <;>
      rcases hsp : s.startPoint with _ | sp <;>
      simp [hpv, hsp]

/-- C8 witness: in an active pending state the preview endpoint follows
the pointer and the start point is untouched. -/
theorem handleMouseMove_spec_witness :
    (MSState.mk true (some ⟨1, 2, 3⟩) (some (⟨1, 2, 3⟩, ⟨1, 2, 3⟩)) ⟨0, 0, 0⟩ []).isActive
        = true ∧
    (handleMouseMove
        ⟨true, some ⟨1, 2, 3⟩, some (⟨1, 2, 3⟩, ⟨1, 2, 3⟩), ⟨0, 0, 0⟩, []⟩
        ⟨4, 5, 6⟩).currentMousePos = ⟨4, 5, 6⟩ ∧
    (handleMouseMove
        ⟨true, some ⟨1, 2, 3⟩, some (⟨1, 2, 3⟩, ⟨1, 2, 3⟩), ⟨0, 0, 0⟩, []⟩
        ⟨4, 5, 6⟩).startPoint = some ⟨1, 2, 3⟩ ∧
    (handleMouseMove
        ⟨true, some ⟨1, 2, 3⟩, some (⟨1, 2, 3⟩, ⟨1, 2, 3⟩), ⟨0, 0, 0⟩, []⟩
        ⟨4, 5, 6⟩).previewLine = some (⟨1, 2, 3⟩, ⟨4, 5, 6⟩) := by
  have h := (handleMouseMove_spec
    ⟨true, some ⟨1, 2, 3⟩, some (⟨1, 2, 3⟩, ⟨1, 2, 3⟩), ⟨0, 0, 0⟩, []⟩
    ⟨4, 5, 6⟩).2 rfl
  exact ⟨rfl, h.1, h.2.2.1, h.2.2.2.2.1 ⟨1, 2, 3⟩ (⟨1, 2, 3⟩, ⟨1, 2, 3⟩) rfl rfl⟩

/-- C9: `removeMeasurement` and `clearAllMeasurements` touch only the
registry: for every state and index, `isActive`, `startPoint`,
`previewLine` (and `currentMousePos`) are unchanged by both, so a
measurement in progress survives removals and bulk clears. -/
theorem registry_ops_preserve_interaction_state (s : MSState) (i : ℤ) :
    ((removeMeasurement s i).isActive = s.isActive ∧
      (removeMeasurement s i).startPoint = s.startPoint ∧
      (removeMeasurement s i).previewLine = s.previewLine ∧
      (removeMeasurement s i).currentMousePos = s.currentMousePos) ∧
    ((clearAllMeasurements s).isActive = s.isActive ∧
      (clearAllMeasurements s).startPoint = s.startPoint ∧
      (clearAllMeasurements s).previewLine = s.previewLine ∧
      (clearAllMeasurements s).currentMousePos = s.currentMousePos) := by
  refine ⟨?_, by simp [clearAllMeasurements]⟩
  rw [removeMeasurement]
  split <;> simp

/-- C10: `createReference` is idempotent: after any call the returned
instance is exactly the stored one, and a further call returns the same
stored-instance pair unchanged — the first call constructs the singleton,
every later call returns it. -/
theorem createReference_singleton (stored : Option MSState) :
    (createReference stored).1 = some (createReference stored).2 ∧
    createReference (createReference stored).1
      = ((createReference stored).1, (createReference stored).2) ∧
    (createReference none).2 = newMeasurementSystem := by
  cases stored <;> simp [createReference]

end MeasurementSystem
